import Mathlib

/-!
Verification of the `mycalmbaby` repository's two functional cores against its
specification: the corner-tap unlock state machine (`src/app/animation.tsx`,
`src/app/components/UIComponents.tsx`, onboarding setup) and the procedural
noise engine (the `WhiteNoiseGenerator` revisions: WAV-buffer generators and
the Web Audio revision, plus the fade/crossfade volume schedulers).

Numeric values that are JavaScript numbers in the source are modelled as
exact rationals (`ℚ`); byte buffers are modelled as lists of naturals with
the `DataView` writes made explicit (little-endian, wrapping mod 2^32/2^16).
-/

namespace MyCalmBaby

/-! ## Corner-tap unlock state machine

Embedding of `handleTouch` (src/app/animation.tsx lines 361-399, duplicated
verbatim in src/app/components/UIComponents.tsx lines 991-1029), the setup
flow `confirmSequence` (src/unnamed/part_006 lines 81-107) and the
`loadSettings` read-back (src/app/animation.tsx lines 121-127).
-/

/-- The four corner identifiers, `type Corner = 'TL' | 'TR' | 'BL' | 'BR'`. -/
inductive Corner
  | TL
  | TR
  | BL
  | BR
deriving DecidableEq, Repr

/-- JavaScript `newSequence.every((corner, index) => corner === unlockSequence[index])`
starting at index `i`: out-of-range indexing yields `undefined`, and
`corner === undefined` is `false`, which `stored.get? i == some c` models. -/
def everyMatches : List Corner → ℕ → List Corner → Bool
  | [], _, _ => true
  | c :: rest, i, stored => (stored.get? i == some c) && everyMatches rest (i + 1) stored

/-- The element-wise comparison performed by `handleTouch` when the
accumulated sequence reaches the stored sequence's length. -/
def seqMatches (attempt stored : List Corner) : Bool :=
  everyMatches attempt 0 stored

/-- Result of one classified corner tap inside `handleTouch`. -/
inductive TapResult
  | unlocked
  | rejected
  | pending (next : List Corner)
deriving DecidableEq, Repr

/-- `handleTouch` (src/app/animation.tsx lines 361-399) restricted to a tap
that `getCornerFromTouch` has already classified as `corner`: append the
corner, and once the length equals the stored sequence's length compare
element-wise, emitting unlock (`fadeOutAndExit`) on match and the
wrong-sequence indicator with a cleared accumulator on mismatch.  The second
component records whether the element-wise comparison was performed. -/
def handleTouch (unlock cur : List Corner) (c : Corner) : TapResult × Bool :=
  let newSeq := cur ++ [c]
  if newSeq.length = unlock.length then
    (if seqMatches newSeq unlock then .unlocked else .rejected, true)
  else
    (.pending newSeq, false)

/-- Events the animation screen's unlock logic reacts to: a tap classified
into a corner, a tap outside every corner zone (ignored by `handleTouch`),
and the 3-second idle timeout firing (clears the accumulator and shows the
wrong-sequence indicator). -/
inductive Event
  | tap (c : Corner)
  | outside
  | timeout

/-- Signals emitted by the unlock screen: `fadeOutAndExit` on a correct
sequence, the wrong-sequence indicator on a mismatched complete sequence,
and the same indicator from the idle-timeout callback. -/
inductive Signal
  | unlocked
  | rejected
  | timedOut
deriving DecidableEq, Repr

/-- One event step of the unlock screen: the new accumulator contents and the
signal emitted, if any.  A successful unlock leaves the screen; its
accumulator is modelled as cleared. -/
def stepAcc (unlock cur : List Corner) : Event → List Corner × Option Signal
  | .outside => (cur, none)
  | .timeout => ([], some .timedOut)
  | .tap c =>
    match (handleTouch unlock cur c).1 with
    | .unlocked => ([], some .unlocked)
    | .rejected => ([], some .rejected)
    | .pending ns => (ns, none)

/-- Run a sequence of events from accumulator `cur`, returning the final
accumulator and the list of emitted signals in order. -/
def runTrace (unlock : List Corner) : List Corner → List Event → List Corner × List Signal
  | cur, [] => (cur, [])
  | cur, e :: es =>
    let s := stepAcc unlock cur e
    let r := runTrace unlock s.1 es
    (r.1, s.2.toList ++ r.2)

/-- `confirmSequence` (src/unnamed/part_006 lines 81-107): persists the
tapped sequence under the `unlockSequence` key only when it has exactly 4
entries; otherwise the store is unchanged.  The JSON round-trip of a corner
array through `AsyncStorage` is modelled as the identity. -/
def confirmSequence (seq : List Corner) (store : Option (List Corner)) : Option (List Corner) :=
  if seq.length = 4 then some seq else store

/-- `loadSettings` (src/app/animation.tsx lines 121-127): a saved sequence is
parsed and installed; with nothing saved the initial state `[]` remains. -/
def loadSettings (store : Option (List Corner)) : List Corner :=
  store.getD []

/-! ## Corner hit-testing

Embedding of `CORNER_SIZE` (src/app/animation.tsx lines 40-41), the
`touchZones` table (lines 66-71) and `getCornerFromTouch` (lines 343-359).
Screen coordinates are JavaScript numbers, modelled as rationals. -/

/-- A corner touch zone, `interface TouchZone` (src/app/animation.tsx lines 32-38). -/
structure TouchZone where
  corner : Corner
  x : ℚ
  y : ℚ
  width : ℚ
  height : ℚ
deriving DecidableEq, Repr

/-- `CORNER_SIZE = Math.max(120, Math.min(width, height) * 0.25)`
(src/app/animation.tsx line 41). -/
def cornerSize (width height : ℚ) : ℚ :=
  max 120 (min width height * 0.25)

/-- The `touchZones` table (src/app/animation.tsx lines 66-71). -/
def touchZones (width height : ℚ) : List TouchZone :=
  let c := cornerSize width height
  [ ⟨.TL, 0, 0, c, c⟩,
    ⟨.TR, width - c, 0, c, c⟩,
    ⟨.BL, 0, height - c, c, c⟩,
    ⟨.BR, width - c, height - c, c, c⟩ ]

/-- The hit test of one zone inside `getCornerFromTouch`
(src/app/animation.tsx lines 347-352): all four boundary comparisons are
inclusive. -/
def inZone (z : TouchZone) (x y : ℚ) : Prop :=
  z.x ≤ x ∧ x ≤ z.x + z.width ∧ z.y ≤ y ∧ y ≤ z.y + z.height

instance (z : TouchZone) (x y : ℚ) : Decidable (inZone z x y) :=
  inferInstanceAs (Decidable (_ ∧ _ ∧ _ ∧ _))

/-- `getCornerFromTouch` (src/app/animation.tsx lines 343-359): the first
zone of the table containing the point, in table order. -/
def getCornerFromTouch (width height x y : ℚ) : Option Corner :=
  ((touchZones width height).find? fun z => decide (inZone z x y)).map (·.corner)

/-! ## Pink-noise synthesis

Embedding of the Paul Kellet filter loop from the three generator revisions:
`generateWhiteNoiseBuffer` (src/unnamed/part_002 lines 79-98),
`createWhiteNoiseBuffer` (src/unnamed/part_005 lines 85-108) and `play`
(src/app/utils/WhiteNoiseGenerator.ts lines 109-129). -/

/-- The seven running filter variables `b0..b6`. -/
structure PinkState where
  b0 : ℚ
  b1 : ℚ
  b2 : ℚ
  b3 : ℚ
  b4 : ℚ
  b5 : ℚ
  b6 : ℚ
deriving DecidableEq, Repr

/-- All three generators start from `b0 = b1 = ... = b6 = 0`. -/
def initPinkState : PinkState := ⟨0, 0, 0, 0, 0, 0, 0⟩

/-- One loop iteration of `generateWhiteNoiseBuffer` (src/unnamed/part_002
lines 85-93): the `b0..b5` updates, the mixed output `pink`, and the `b6`
update performed after the mix. -/
def pinkStepBuf (s : PinkState) (white : ℚ) : PinkState × ℚ :=
  let b0 := 0.99886 * s.b0 + white * 0.0555179
  let b1 := 0.99332 * s.b1 + white * 0.0750759
  let b2 := 0.96900 * s.b2 + white * 0.1538520
  let b3 := 0.86650 * s.b3 + white * 0.3104856
  let b4 := 0.55000 * s.b4 + white * 0.5329522
  let b5 := -0.7616 * s.b5 - white * 0.0168980
  let pink := b0 + b1 + b2 + b3 + b4 + b5 + s.b6 + white * 0.5362
  let b6 := white * 0.115926
  (⟨b0, b1, b2, b3, b4, b5, b6⟩, pink)

/-- One loop iteration of `createWhiteNoiseBuffer` (src/unnamed/part_005
lines 92-101): textually the same recurrence as `pinkStepBuf`. -/
def pinkStepWav (s : PinkState) (white : ℚ) : PinkState × ℚ :=
  let b0 := 0.99886 * s.b0 + white * 0.0555179
  let b1 := 0.99332 * s.b1 + white * 0.0750759
  let b2 := 0.96900 * s.b2 + white * 0.1538520
  let b3 := 0.86650 * s.b3 + white * 0.3104856
  let b4 := 0.55000 * s.b4 + white * 0.5329522
  let b5 := -0.7616 * s.b5 - white * 0.0168980
  let value := b0 + b1 + b2 + b3 + b4 + b5 + s.b6 + white * 0.5362
  let b6 := white * 0.115926
  (⟨b0, b1, b2, b3, b4, b5, b6⟩, value)

/-- One loop iteration of `play` (src/app/utils/WhiteNoiseGenerator.ts lines
111-129): the same `b0..b5` updates and output mix, but the source contains
no assignment to `b6`, which therefore keeps its previous value. -/
def playStep (s : PinkState) (white : ℚ) : PinkState × ℚ :=
  let b0 := 0.99886 * s.b0 + white * 0.0555179
  let b1 := 0.99332 * s.b1 + white * 0.0750759
  let b2 := 0.96900 * s.b2 + white * 0.1538520
  let b3 := 0.86650 * s.b3 + white * 0.3104856
  let b4 := 0.55000 * s.b4 + white * 0.5329522
  let b5 := -0.7616 * s.b5 - white * 0.0168980
  let out := b0 + b1 + b2 + b3 + b4 + b5 + s.b6 + white * 0.5362
  (⟨b0, b1, b2, b3, b4, b5, s.b6⟩, out)

/-- Modelled from the spec: the Paul Kellet recurrence exactly as the spec
and claim C2 state it (spec.md section 4.1): update `b0..b5` by the fixed
coefficients, output `b0+b1+b2+b3+b4+b5+b6` plus `0.5362·w`, then update
`b6` to `0.115926·w`. -/
def kelletStep (s : PinkState) (white : ℚ) : PinkState × ℚ :=
  let b0 := 0.99886 * s.b0 + white * 0.0555179
  let b1 := 0.99332 * s.b1 + white * 0.0750759
  let b2 := 0.96900 * s.b2 + white * 0.1538520
  let b3 := 0.86650 * s.b3 + white * 0.3104856
  let b4 := 0.55000 * s.b4 + white * 0.5329522
  let b5 := -0.7616 * s.b5 - white * 0.0168980
  let pink := b0 + b1 + b2 + b3 + b4 + b5 + s.b6 + white * 0.5362
  let b6 := white * 0.115926
  (⟨b0, b1, b2, b3, b4, b5, b6⟩, pink)

/-- The generator loop: apply a step function sequentially, the state carried
from each sample to the next, collecting the raw outputs. -/
def genLoop (step : PinkState → ℚ → PinkState × ℚ) : PinkState → List ℚ → List ℚ
  | _, [] => []
  | s, w :: ws =>
    let r := step s w
    r.2 :: genLoop step r.1 ws

/-- The white draw `Math.random() * 2 - 1` of the WAV generators
(src/unnamed/part_002 line 82, src/unnamed/part_005 line 89), as a function
of the uniform draw `r` in `[0, 1)`. -/
def wavWhite (r : ℚ) : ℚ := r * 2 - 1

/-- The white draw `Math.random() * 0.5 - 0.25` of the Web Audio revision
(src/app/utils/WhiteNoiseGenerator.ts line 113). -/
def playWhite (r : ℚ) : ℚ := r * 0.5 - 0.25

/-- Truncation toward zero, as JavaScript `DataView.setInt16` converts its
number argument before storing. -/
def ratTrunc (q : ℚ) : ℤ :=
  if 0 ≤ q then ⌊q⌋ else ⌈q⌉

/-- The sample post-processing of src/unnamed/part_002 line 96:
`Math.max(-1, Math.min(1, pink * 0.11)) * 32767`. -/
def quantizeBuf (pink : ℚ) : ℚ :=
  max (-1) (min 1 (pink * 0.11)) * 32767

/-- The sample post-processing of src/unnamed/part_005 line 104 with
`amplitude = 0.2`: `Math.max(Math.min(value * amplitude, 1), -1) * 32767`. -/
def quantizeWav (value : ℚ) : ℚ :=
  max (min (value * 0.2) 1) (-1) * 32767

/-- The clamp of src/app/utils/WhiteNoiseGenerator.ts lines 127-128: two
sequential conditional assignments bounding the stored sample to
`[-0.8, 0.8]`. -/
def clampPlay (v : ℚ) : ℚ :=
  let v1 := if 0.8 < v then 0.8 else v
  if v1 < -0.8 then -0.8 else v1

/-- The Int16 samples `generateWhiteNoiseBuffer` writes, for a given stream
of white draws. -/
def bufSamples (ws : List ℚ) : List ℤ :=
  (genLoop pinkStepBuf initPinkState ws).map fun p => ratTrunc (quantizeBuf p)

/-- The Int16 samples `createWhiteNoiseBuffer` writes. -/
def wavSamples (ws : List ℚ) : List ℤ :=
  (genLoop pinkStepWav initPinkState ws).map fun v => ratTrunc (quantizeWav v)

/-- The Float32 samples `play` stores into its Web Audio buffer. -/
def playSamples (ws : List ℚ) : List ℚ :=
  (genLoop playStep initPinkState ws).map clampPlay

/-! ## WAV header encoding

Embedding of the DataView header writes of `generateWhiteNoiseBuffer`
(src/unnamed/part_002 lines 60-76) and `createWhiteNoiseBuffer`
(src/unnamed/part_005 lines 59-81).  A buffer is a list of byte values;
`setUint16`/`setUint32` with `littleEndian = true` store the value mod
2^16 / 2^32 least-significant byte first. -/

/-- The two bytes `setUint16(off, v, true)` stores. -/
def u16le (v : ℕ) : List ℕ :=
  [v % 256, v / 256 % 256]

/-- The four bytes `setUint32(off, v, true)` stores. -/
def u32le (v : ℕ) : List ℕ :=
  [v % 256, v / 256 % 256, v / 65536 % 256, v / 16777216 % 256]

/-- Overwrite `buf` at offset `off` with the bytes `bs`, as consecutive
DataView byte stores do. -/
def writeBytes : List ℕ → ℕ → List ℕ → List ℕ
  | buf, _, [] => buf
  | [], _, _ :: _ => []
  | _ :: t, 0, b :: bs => b :: writeBytes t 0 bs
  | h :: t, o + 1, bs => h :: writeBytes t o bs

/-- The character codes `writeString` stores for the four header tags. -/
def riffBytes : List ℕ := [82, 73, 70, 70]

/-- Character codes of the WAVE tag. -/
def waveBytes : List ℕ := [87, 65, 86, 69]

/-- Character codes of the fmt-space tag. -/
def fmtBytes : List ℕ := [102, 109, 116, 32]

/-- Character codes of the data tag. -/
def dataChunkBytes : List ℕ := [100, 97, 116, 97]

/-- The 44 header bytes of `generateWhiteNoiseBuffer` (src/unnamed/part_002
lines 60-76), as a function of the sample rate and the sample count (the
source computes `numSamples = sampleRate * duration` and then writes every
header field from those two quantities). -/
def generateWavHeader (sampleRate numSamples : ℕ) : List ℕ :=
  let b0 := List.replicate 44 0
  let b1 := writeBytes b0 0 riffBytes
  let b2 := writeBytes b1 4 (u32le (36 + numSamples * 2))
  let b3 := writeBytes b2 8 waveBytes
  let b4 := writeBytes b3 12 fmtBytes
  let b5 := writeBytes b4 16 (u32le 16)
  let b6 := writeBytes b5 20 (u16le 1)
  let b7 := writeBytes b6 22 (u16le 1)
  let b8 := writeBytes b7 24 (u32le sampleRate)
  let b9 := writeBytes b8 28 (u32le (sampleRate * 2))
  let b10 := writeBytes b9 32 (u16le 2)
  let b11 := writeBytes b10 34 (u16le 16)
  let b12 := writeBytes b11 36 dataChunkBytes
  writeBytes b12 40 (u32le (numSamples * 2))

/-- The 44 header bytes of `createWhiteNoiseBuffer` (src/unnamed/part_005
lines 46-81), with its fixed constants: 44100 Hz, 3 seconds, mono,
16-bit. -/
def createWavHeader : List ℕ :=
  let sampleRate := 44100
  let seconds := 3
  let numChannels := 1
  let bytesPerSample := 2
  let numSamples := sampleRate * seconds
  let dataSize := numSamples * numChannels * bytesPerSample
  let fileSize := 44 + dataSize
  let b0 := List.replicate 44 0
  let b1 := writeBytes b0 0 riffBytes
  let b2 := writeBytes b1 4 (u32le (fileSize - 8))
  let b3 := writeBytes b2 8 waveBytes
  let b4 := writeBytes b3 12 fmtBytes
  let b5 := writeBytes b4 16 (u32le 16)
  let b6 := writeBytes b5 20 (u16le 1)
  let b7 := writeBytes b6 22 (u16le numChannels)
  let b8 := writeBytes b7 24 (u32le sampleRate)
  let b9 := writeBytes b8 28 (u32le (sampleRate * numChannels * bytesPerSample))
  let b10 := writeBytes b9 32 (u16le (numChannels * bytesPerSample))
  let b11 := writeBytes b10 34 (u16le (8 * bytesPerSample))
  let b12 := writeBytes b11 36 dataChunkBytes
  writeBytes b12 40 (u32le dataSize)

/-- Read back a 16-bit little-endian field starting at `off`. -/
def readU16 (buf : List ℕ) (off : ℕ) : ℕ :=
  buf.getD off 0 + 256 * buf.getD (off + 1) 0

/-- Read back a 32-bit little-endian field starting at `off`. -/
def readU32 (buf : List ℕ) (off : ℕ) : ℕ :=
  buf.getD off 0 + 256 * buf.getD (off + 1) 0
    + 65536 * buf.getD (off + 2) 0 + 16777216 * buf.getD (off + 3) 0

/-! ## Volume fades

Embedding of the fade loops of src/unnamed/part_002: `fadeIn` (lines
219-241), `fadeOut` (lines 246-270) and `fadeToVolume` (lines 275-302),
with `fadeSteps = 20` (line 16).  Each interval tick mutates
`currentVolume`; `fadeInVol t k` etc. is its value after `k` ticks, and the
`Done` predicate is the condition under which the tick clears its own
interval (the fade completes). -/

/-- `this.fadeSteps = 20` (src/unnamed/part_002 line 16). -/
def fadeSteps : ℕ := 20

/-- `fadeIn`: `currentVolume` starts at 0 and each tick sets
`min(currentVolume + targetVolume / fadeSteps, targetVolume)`. -/
def fadeInVol (target : ℚ) : ℕ → ℚ
  | 0 => 0
  | k + 1 => min (fadeInVol target k + target / (fadeSteps : ℚ)) target

/-- The `fadeIn` tick clears its interval when `currentVolume >= targetVolume`. -/
def fadeInDone (target : ℚ) (k : ℕ) : Prop :=
  target ≤ fadeInVol target k

/-- `fadeOut`: from the start volume, each tick sets
`max(currentVolume - volumeStep, 0)` with `volumeStep` computed once as
`currentVolume / fadeSteps`. -/
def fadeOutVol (start : ℚ) : ℕ → ℚ
  | 0 => start
  | k + 1 => max (fadeOutVol start k - start / (fadeSteps : ℚ)) 0

/-- The `fadeOut` tick clears its interval (and resolves) when
`currentVolume <= 0`. -/
def fadeOutDone (start : ℚ) (k : ℕ) : Prop :=
  fadeOutVol start k ≤ 0

/-- `fadeToVolume`: `volumeStep = (targetVolume - currentVolume) / fadeSteps`
computed once; each tick adds it unclamped. -/
def fadeToVol (start target : ℚ) : ℕ → ℚ
  | 0 => start
  | k + 1 => fadeToVol start target k + (target - start) / (fadeSteps : ℚ)

/-- The `fadeToVolume` tick snaps to the target and clears its interval when
`Math.abs(currentVolume - targetVolume) < Math.abs(volumeStep)`. -/
def fadeToDone (start target : ℚ) (k : ℕ) : Prop :=
  |fadeToVol start target k - target| < |(target - start) / (fadeSteps : ℚ)|

/-- A fade completes at tick `n` when its clearing condition holds there for
the first time (ticks are counted from 1). -/
def stopsAt (done : ℕ → Prop) (n : ℕ) : Prop :=
  1 ≤ n ∧ done n ∧ ∀ m, 1 ≤ m → m < n → ¬ done m

/-! ## Crossfade scheduler

Embedding of the crossfade loop of `setupSeamlessLooping`
(src/app/components/UIComponents.tsx lines 823-829 and 838-844): for
`i = 0..10`, `progress = i / 10`, the outgoing slot volume is set to
`0.7 * (1 - progress)` and the incoming slot volume to `0.7 * progress`. -/

/-- Outgoing slot volume at crossfade step `i`. -/
def crossfadeOutVol (i : ℕ) : ℚ :=
  0.7 * (1 - (i : ℚ) / 10)

/-- Incoming slot volume at crossfade step `i`. -/
def crossfadeInVol (i : ℕ) : ℚ :=
  0.7 * ((i : ℚ) / 10)

/-! # Theorems

## Unlock state machine -/

/-- Helper: the JavaScript indexed `every` comparison starting at index `i`
succeeds exactly when the suffix of the stored sequence from `i` equals the
attempt, provided the attempt reaches to the end of the stored sequence. -/
theorem everyMatches_iff (a : List Corner) :
    ∀ (i : ℕ) (s : List Corner), i + a.length = s.length →
      (everyMatches a i s = true ↔ s.drop i = a) := by
  induction a with
  | nil =>
    intro i s h
    simp only [List.length_nil, Nat.add_zero] at h
    subst h
    simp [everyMatches, List.drop_length]
  | cons c rest ih =>
    intro i s h
    simp only [List.length_cons] at h
    have hi : i < s.length := by omega
    rw [List.drop_eq_getElem_cons hi]
    simp only [everyMatches, Bool.and_eq_true, beq_iff_eq,
      List.get?_eq_getElem?, List.getElem?_eq_getElem hi,
      ih (i + 1) s (by omega), Option.some.injEq, List.cons.injEq]

/-- Helper: once the lengths agree, the full-length comparison is exactly
list equality. -/
theorem seqMatches_iff (a s : List Corner) (h : a.length = s.length) :
    seqMatches a s = true ↔ a = s := by
  rw [seqMatches, everyMatches_iff a 0 s (by omega), List.drop_zero, eq_comm]

/-- Helper: one unfolding step of `runTrace` on a nonempty event list. -/
theorem runTrace_cons (unlock cur : List Corner) (e : Event) (es : List Event) :
    runTrace unlock cur (e :: es) =
      ((runTrace unlock (stepAcc unlock cur e).1 es).1,
       (stepAcc unlock cur e).2.toList ++ (runTrace unlock (stepAcc unlock cur e).1 es).2) :=
  rfl

/-- Helper: a tap event defers to `handleTouch`. -/
theorem stepAcc_tap (unlock cur : List Corner) (c : Corner) :
    stepAcc unlock cur (Event.tap c) =
      match (handleTouch unlock cur c).1 with
      | .unlocked => ([], some .unlocked)
      | .rejected => ([], some .rejected)
      | .pending ns => (ns, none) :=
  rfl

/-- Helper: an attempt that runs the accumulator up to exactly the stored
length emits one signal, unlock on list equality and rejection otherwise,
and leaves the accumulator cleared. -/
theorem runTrace_completes (unlock : List Corner) :
    ∀ (taps cur : List Corner), taps ≠ [] →
      cur.length + taps.length = unlock.length →
      runTrace unlock cur (taps.map Event.tap) =
        ([], [if cur ++ taps = unlock then Signal.unlocked else Signal.rejected]) := by
  intro taps
  induction taps with
  | nil => intro cur h; exact absurd rfl h
  | cons c cs ih =>
    intro cur _ hlen
    cases cs with
    | nil =>
      simp only [List.length_cons, List.length_nil] at hlen
      have hfull : (cur ++ [c]).length = unlock.length := by
        simp only [List.length_append, List.length_singleton]; omega
      by_cases hm : cur ++ [c] = unlock
      · have hs : seqMatches (cur ++ [c]) unlock = true :=
          (seqMatches_iff _ _ hfull).mpr hm
        have hht : (handleTouch unlock cur c).1 = TapResult.unlocked := by
          simp [handleTouch, hfull, hs]
        rw [List.map_cons, List.map_nil, runTrace_cons, stepAcc_tap, hht, if_pos hm]
        rfl
      · have hs : seqMatches (cur ++ [c]) unlock ≠ true :=
          fun h2 => hm ((seqMatches_iff _ _ hfull).mp h2)
        have hht : (handleTouch unlock cur c).1 = TapResult.rejected := by
          simp [handleTouch, hfull, hs]
        rw [List.map_cons, List.map_nil, runTrace_cons, stepAcc_tap, hht, if_neg hm]
        rfl
    | cons c2 cs2 =>
      simp only [List.length_cons] at hlen
      have hne : cur.length + 1 ≠ unlock.length := by omega
      have hht : (handleTouch unlock cur c).1 = TapResult.pending (cur ++ [c]) := by
        simp [handleTouch, hne]
      have hrec := ih (cur ++ [c]) (by simp) (by simp; omega)
      rw [List.map_cons, runTrace_cons, stepAcc_tap, hht]
      simp only [hrec, Option.toList_none, List.nil_append, List.append_assoc,
        List.singleton_append]

/-- C1: Unlock round-trip: a 4-corner sequence recorded via setup
(`confirmSequence` persists it) and loaded back as the stored sequence makes
a 4-tap attempt unlock (`fadeOutAndExit`) exactly when the attempt equals
the stored sequence element-wise, and rejects (wrong-sequence indicator with
cleared accumulator) every 4-tap attempt differing in at least one
position. -/
theorem unlock_round_trip (seq : List Corner) (hseq : seq.length = 4)
    (store : Option (List Corner)) (taps : List Corner) (htaps : taps.length = 4) :
    loadSettings (confirmSequence seq store) = seq ∧
    ((runTrace (loadSettings (confirmSequence seq store)) [] (taps.map Event.tap)).2 =
        [Signal.unlocked] ↔ taps = seq) ∧
    ((runTrace (loadSettings (confirmSequence seq store)) [] (taps.map Event.tap)).2 =
        [Signal.rejected] ↔ taps ≠ seq) := by
  have hload : loadSettings (confirmSequence seq store) = seq := by
    simp [loadSettings, confirmSequence, hseq]
  have hrun := runTrace_completes seq taps []
    (by intro h; rw [h] at htaps; simp at htaps)
    (by simp [htaps, hseq])
  rw [List.nil_append] at hrun
  refine ⟨hload, ?_, ?_⟩ <;> rw [hload, hrun] <;>
    by_cases hts : taps = seq <;> simp [hts]

/-- C1 witness: the spec example: stored `[TL, BR, TL, TR]`; replaying it
unlocks, and the transposed attempt `[TL, BR, TR, TL]` is rejected. -/
theorem unlock_round_trip_witness :
    (runTrace (loadSettings (confirmSequence [Corner.TL, Corner.BR, Corner.TL, Corner.TR] none))
        [] ([Corner.TL, Corner.BR, Corner.TL, Corner.TR].map Event.tap)).2 = [Signal.unlocked] ∧
    (runTrace (loadSettings (confirmSequence [Corner.TL, Corner.BR, Corner.TL, Corner.TR] none))
        [] ([Corner.TL, Corner.BR, Corner.TR, Corner.TL].map Event.tap)).2 = [Signal.rejected] :=
  ⟨(unlock_round_trip [Corner.TL, Corner.BR, Corner.TL, Corner.TR] rfl none
      [Corner.TL, Corner.BR, Corner.TL, Corner.TR] rfl).2.1.mpr rfl,
   (unlock_round_trip [Corner.TL, Corner.BR, Corner.TL, Corner.TR] rfl none
      [Corner.TL, Corner.BR, Corner.TR, Corner.TL] rfl).2.2.mpr (by decide)⟩

/-- Helper: with a nonempty stored sequence the accumulator stays strictly
shorter than the stored sequence along every event trace. -/
theorem runTrace_length_lt (unlock : List Corner) (hpos : 0 < unlock.length) :
    ∀ (evs : List Event) (cur : List Corner), cur.length < unlock.length →
      (runTrace unlock cur evs).1.length < unlock.length := by
  intro evs
  induction evs with
  | nil => intro cur h; exact h
  | cons e es ih =>
    intro cur h
    rw [runTrace_cons]
    cases e with
    | outside => exact ih cur h
    | timeout => exact ih [] (by simpa using hpos)
    | tap c =>
      by_cases hfull : cur.length + 1 = unlock.length
      · have hacc : (stepAcc unlock cur (Event.tap c)).1 = [] := by
          rw [stepAcc_tap]
          by_cases hm : seqMatches (cur ++ [c]) unlock = true <;>
            simp [handleTouch, hfull, hm]
        rw [hacc]
        exact ih [] (by simpa using hpos)
      · have hacc : (stepAcc unlock cur (Event.tap c)).1 = cur ++ [c] := by
          rw [stepAcc_tap]
          simp [handleTouch, hfull]
        rw [hacc]
        exact ih (cur ++ [c]) (by simp; omega)

/-- C6: starting from the empty accumulator, along every trace of classified
taps, outside taps and timeouts the accumulator never exceeds the stored
4-entry sequence length (it stays strictly below it between events, so even
the transient appended attempt stays within bound), and the element-wise
comparison is performed at a tap exactly when that tap brings the length to
equality with the stored length, never on a shorter prefix. -/
theorem accumulator_bounded (stored : List Corner) (h4 : stored.length = 4)
    (evs : List Event) :
    (runTrace stored [] evs).1.length < stored.length ∧
    (∀ c : Corner, ((runTrace stored [] evs).1 ++ [c]).length ≤ stored.length) ∧
    (∀ c : Corner,
      ((handleTouch stored (runTrace stored [] evs).1 c).2 = true ↔
        ((runTrace stored [] evs).1 ++ [c]).length = stored.length)) := by
  have hlt := runTrace_length_lt stored (by omega) evs [] (by simp; omega)
  refine ⟨hlt, fun c => ?_, fun c => ?_⟩
  · simp only [List.length_append, List.length_singleton]; omega
  · rcases eq_or_ne ((runTrace stored [] evs).1 ++ [c]).length stored.length with
      hcond | hcond
    · simp only [handleTouch]
      rw [if_pos hcond]
      simp [hcond]
    · simp only [handleTouch]
      rw [if_neg hcond]
      simp only [List.length_append, List.length_singleton] at hcond
      simp [hcond]

/-- C6 witness at a concrete stored sequence and trace. -/
theorem accumulator_bounded_witness :
    (runTrace [Corner.TL, Corner.TR, Corner.BL, Corner.BR] []
        [Event.tap Corner.TL, Event.tap Corner.TR]).1.length
      < ([Corner.TL, Corner.TR, Corner.BL, Corner.BR] : List Corner).length :=
  (accumulator_bounded [Corner.TL, Corner.TR, Corner.BL, Corner.BR] rfl
    [Event.tap Corner.TL, Event.tap Corner.TR]).1

/-- Helper: with the empty stored sequence a classified tap always leaves the
attempt pending: the completion check compares the new length, at least 1,
against 0 and never fires. -/
theorem handleTouch_nil_stored (cur : List Corner) (c : Corner) :
    handleTouch [] cur c = (TapResult.pending (cur ++ [c]), false) := by
  simp [handleTouch]

/-- Helper: an outside tap is ignored. -/
theorem stepAcc_outside (unlock cur : List Corner) :
    stepAcc unlock cur Event.outside = (cur, none) :=
  rfl

/-- Helper: the idle timeout clears the accumulator and emits its indicator. -/
theorem stepAcc_timeout (unlock cur : List Corner) :
    stepAcc unlock cur Event.timeout = ([], some Signal.timedOut) :=
  rfl

/-- Helper: with the empty stored sequence every emitted signal is the idle
timeout indicator. -/
theorem runTrace_nil_stored_signals :
    ∀ (evs : List Event) (cur : List Corner) (s : Signal),
      s ∈ (runTrace [] cur evs).2 → s = Signal.timedOut := by
  intro evs
  induction evs with
  | nil => intro cur s hs; simp [runTrace] at hs
  | cons e es ih =>
    intro cur s hs
    cases e with
    | outside =>
      rw [runTrace_cons, stepAcc_outside] at hs
      exact ih cur s (by simpa using hs)
    | timeout =>
      rw [runTrace_cons, stepAcc_timeout] at hs
      rcases List.mem_cons.mp (by simpa using hs) with h | h
      · exact h
      · exact ih [] s h
    | tap c =>
      rw [runTrace_cons, stepAcc_tap, handleTouch_nil_stored] at hs
      exact ih (cur ++ [c]) s (by simpa using hs)

/-- C9: with no stored unlock sequence (the loaded sequence is the empty
list) the unlock screen never emits the unlock signal and never emits the
comparison-mismatch rejection: a classified tap only appends to the
accumulator (the completion check cannot fire), and only the idle timeout,
which clears the accumulator, emits its indicator. -/
theorem empty_sequence_never_unlocks (evs : List Event) :
    Signal.unlocked ∉ (runTrace (loadSettings none) [] evs).2 ∧
    Signal.rejected ∉ (runTrace (loadSettings none) [] evs).2 ∧
    (∀ (cur : List Corner) (c : Corner),
      stepAcc (loadSettings none) cur (Event.tap c) = (cur ++ [c], none)) ∧
    (∀ cur : List Corner,
      stepAcc (loadSettings none) cur Event.timeout = ([], some Signal.timedOut)) := by
  refine ⟨fun h => ?_, fun h => ?_, fun cur c => ?_, fun cur => rfl⟩
  · exact absurd (runTrace_nil_stored_signals evs [] _ h) (by simp)
  · exact absurd (runTrace_nil_stored_signals evs [] _ h) (by simp)
  · rw [loadSettings, Option.getD_none, stepAcc_tap, handleTouch_nil_stored]

/-- C10: a corner tap arriving right after a mismatched complete attempt
(while the 1-second wrong-sequence indicator is still showing, a state the
touch handler never consults) is not ignored: the accumulator was cleared at
the mismatch, so the new tap is appended as a fresh attempt of length 1. -/
theorem tap_after_rejection_processed (stored cur : List Corner) (c c2 : Corner)
    (h4 : stored.length = 4)
    (hrej : (stepAcc stored cur (Event.tap c)).2 = some Signal.rejected) :
    (stepAcc stored cur (Event.tap c)).1 = [] ∧
    stepAcc stored (stepAcc stored cur (Event.tap c)).1 (Event.tap c2) = ([c2], none) ∧
    ([c2] : List Corner).length = 1 := by
  have hacc : (stepAcc stored cur (Event.tap c)).1 = [] := by
    rw [stepAcc_tap] at hrej ⊢
    rcases hh : (handleTouch stored cur c).1 with _ | _ | ns <;> simp_all
  refine ⟨hacc, ?_, rfl⟩
  rw [hacc, stepAcc_tap]
  have hht : (handleTouch stored [] c2).1 = TapResult.pending [c2] := by
    simp [handleTouch, h4]
  rw [hht]

/-- C10 witness: stored all-TL sequence; the fourth tap TR mismatches, and
the immediately following tap BL starts a fresh length-1 attempt. -/
theorem tap_after_rejection_processed_witness :
    stepAcc [Corner.TL, Corner.TL, Corner.TL, Corner.TL]
        (stepAcc [Corner.TL, Corner.TL, Corner.TL, Corner.TL]
          [Corner.TL, Corner.TL, Corner.TL] (Event.tap Corner.TR)).1
        (Event.tap Corner.BL) = ([Corner.BL], none) :=
  (tap_after_rejection_processed [Corner.TL, Corner.TL, Corner.TL, Corner.TL]
    [Corner.TL, Corner.TL, Corner.TL] Corner.TR Corner.BL rfl (by decide)).2.1

/-! ## Corner zones -/

/-- C7 counterexample: the zones are not disjoint for every screen size. On
a 240 by 240 screen the corner size is max(120, 60) = 120 and the point
(120, 120) passes the inclusive hit test of two different zones (in fact of
all four). -/
theorem corner_zones_overlap_small_screen :
    ∃ z1 ∈ touchZones 240 240, ∃ z2 ∈ touchZones 240 240,
      z1.corner ≠ z2.corner ∧ inZone z1 120 120 ∧ inZone z2 120 120 := by
  have hc : cornerSize 240 240 = 120 := by norm_num [cornerSize]
  refine ⟨⟨Corner.TL, 0, 0, cornerSize 240 240, cornerSize 240 240⟩, by simp [touchZones],
    ⟨Corner.TR, 240 - cornerSize 240 240, 0, cornerSize 240 240, cornerSize 240 240⟩,
    by simp [touchZones], by decide, ?_, ?_⟩ <;> rw [inZone] <;> norm_num [hc]

/-- C7 amended: for every screen whose smaller dimension strictly exceeds
240 (twice the minimum corner size), the four corner touch zones are
pairwise disjoint: no point passes the inclusive hit tests of two different
zones, so `getCornerFromTouch` classifies a point into at most one zone. -/
theorem corner_zones_disjoint (width height : ℚ) (hmin : 240 < min width height) :
    ∀ z1 ∈ touchZones width height, ∀ z2 ∈ touchZones width height,
      z1.corner ≠ z2.corner → ∀ x y : ℚ, ¬ (inZone z1 x y ∧ inZone z2 x y) := by
  have hc2 : 2 * cornerSize width height < min width height := by
    rw [cornerSize]
    rcases le_total 120 (min width height * 0.25) with h | h
    · rw [max_eq_right h]
      have hm : (0 : ℚ) < min width height := by linarith
      linarith
    · rw [max_eq_left h]
      linarith
  have hcw : 2 * cornerSize width height < width :=
    lt_of_lt_of_le hc2 (min_le_left _ _)
  have hch : 2 * cornerSize width height < height :=
    lt_of_lt_of_le hc2 (min_le_right _ _)
  intro z1 hz1 z2 hz2 hne x y h
  obtain ⟨h1, h2⟩ := h
  simp only [touchZones, List.mem_cons, List.not_mem_nil, or_false] at hz1 hz2
  rcases hz1 with rfl | rfl | rfl | rfl <;> rcases hz2 with rfl | rfl | rfl | rfl <;>
    first
      | exact hne rfl
      | (obtain ⟨a1, a2, a3, a4⟩ := h1
         obtain ⟨b1, b2, b3, b4⟩ := h2
         simp only at a1 a2 a3 a4 b1 b2 b3 b4
         linarith)

/-- C7 amended witness on a 390 by 844 screen: the top-left and top-right
zones do not both contain the point (200, 200). -/
theorem corner_zones_disjoint_witness :
    ¬ (inZone ⟨Corner.TL, 0, 0, cornerSize 390 844, cornerSize 390 844⟩ 200 200 ∧
       inZone ⟨Corner.TR, 390 - cornerSize 390 844, 0,
                cornerSize 390 844, cornerSize 390 844⟩ 200 200) :=
  corner_zones_disjoint 390 844 (by norm_num [min_def]) _ (by simp [touchZones]) _
    (by simp [touchZones]) (by decide) 200 200

/-! ## Crossfade scheduler -/

/-- C5: at every crossfade step i of the 10 steps, the outgoing and incoming
slot volumes are 0.7(1 - i/10) and 0.7(i/10), both non-negative, their sum
equals the steady-state target 0.7 exactly at every step, with 0.7 + 0 at
the start and 0 + 0.7 at the end. -/
theorem crossfade_volume_sum (i : ℕ) (hi : i ≤ 10) :
    crossfadeOutVol i = 0.7 * (1 - (i : ℚ) / 10) ∧
    crossfadeInVol i = 0.7 * ((i : ℚ) / 10) ∧
    0 ≤ crossfadeOutVol i ∧ 0 ≤ crossfadeInVol i ∧
    crossfadeOutVol i + crossfadeInVol i = 0.7 ∧
    crossfadeOutVol 0 = 0.7 ∧ crossfadeInVol 0 = 0 ∧
    crossfadeOutVol 10 = 0 ∧ crossfadeInVol 10 = 0.7 := by
  have hiq : (i : ℚ) ≤ 10 := by exact_mod_cast hi
  have hiq0 : (0 : ℚ) ≤ (i : ℚ) := Nat.cast_nonneg i
  refine ⟨rfl, rfl, ?_, ?_, ?_, ?_, ?_, ?_, ?_⟩
  · rw [crossfadeOutVol]; linarith
  · rw [crossfadeInVol]; positivity
  · rw [crossfadeOutVol, crossfadeInVol]; ring
  · norm_num [crossfadeOutVol]
  · norm_num [crossfadeInVol]
  · norm_num [crossfadeOutVol]
  · norm_num [crossfadeInVol]

/-- C5 witness at step 3. -/
theorem crossfade_volume_sum_witness :
    crossfadeOutVol 3 + crossfadeInVol 3 = 0.7 ∧ 0 ≤ crossfadeOutVol 3 :=
  ⟨(crossfade_volume_sum 3 (by norm_num)).2.2.2.2.1,
   (crossfade_volume_sum 3 (by norm_num)).2.2.1⟩

/-! ## Pink-noise recurrence -/

/-- C2 counterexample: the Web Audio revision (`play`) does not follow the
stated recurrence.  Its loop contains no assignment to `b6`, so with the
white draw 1/4 from the all-zero initial state its resulting filter state
keeps `b6 = 0` while the Kellet step sets `b6 = 0.115926 · (1/4) ≠ 0`. -/
theorem play_step_not_kellet :
    playStep initPinkState (1 / 4) ≠ kelletStep initPinkState (1 / 4) := by
  intro h
  have hb := congrArg (fun r => r.1.b6) h
  simp only [playStep, kelletStep, initPinkState] at hb
  norm_num at hb

/-- C2 amended: the two WAV-buffer generators follow the stated Paul Kellet
recurrence exactly, sample by sample with the state carried sequentially,
and their white draw lies in [-1, 1]; the Web Audio revision applies the
same b0..b5 updates and output mix but never updates b6 (which stays at its
previous value, hence 0 forever) and draws its white sample from
[-1/4, 1/4) instead of [-1, 1]. -/
theorem pink_recurrence_refined :
    (∀ (s : PinkState) (w : ℚ), pinkStepBuf s w = kelletStep s w) ∧
    (∀ (s : PinkState) (w : ℚ), pinkStepWav s w = kelletStep s w) ∧
    (∀ ws : List ℚ,
      genLoop pinkStepBuf initPinkState ws = genLoop kelletStep initPinkState ws) ∧
    (∀ ws : List ℚ,
      genLoop pinkStepWav initPinkState ws = genLoop kelletStep initPinkState ws) ∧
    (∀ r : ℚ, 0 ≤ r → r < 1 → -1 ≤ wavWhite r ∧ wavWhite r ≤ 1) ∧
    (∀ (s : PinkState) (w : ℚ), ((playStep s w).1).b6 = s.b6) ∧
    (∀ r : ℚ, 0 ≤ r → r < 1 → -(1 / 4 : ℚ) ≤ playWhite r ∧ playWhite r < 1 / 4) := by
  refine ⟨fun s w => rfl, fun s w => rfl, fun ws => rfl, fun ws => rfl,
    fun r h0 h1 => ⟨?_, ?_⟩, fun s w => rfl, fun r h0 h1 => ⟨?_, ?_⟩⟩ <;>
    simp only [wavWhite, playWhite] <;> norm_num <;> linarith

/-- C2 witness for the white-draw range parts. -/
theorem pink_recurrence_refined_witness :
    (-1 ≤ wavWhite (1 / 2) ∧ wavWhite (1 / 2) ≤ 1) ∧
    (-(1 / 4 : ℚ) ≤ playWhite (1 / 2) ∧ playWhite (1 / 2) < 1 / 4) :=
  ⟨pink_recurrence_refined.2.2.2.2.1 (1 / 2) (by norm_num) (by norm_num),
   pink_recurrence_refined.2.2.2.2.2.2 (1 / 2) (by norm_num) (by norm_num)⟩

/-! ## Sample range safety -/

/-- Helper: a bound that holds for the default and for every list element
holds for every `getD` access. -/
theorem forall_getD {α : Type} (l : List α) (i : ℕ) (d : α) (P : α → Prop)
    (hd : P d) (h : ∀ x ∈ l, P x) : P (l.getD i d) := by
  have he : l.getD i d = (l.get? i).getD d := rfl
  rw [he]
  cases hq : l.get? i with
  | none => exact hd
  | some a => exact h a (List.get?_mem hq)

/-- Helper: truncation toward zero stays within integer bounds enclosing the
rational. -/
theorem ratTrunc_bounds (q : ℚ) (lo hi : ℤ) (hlo0 : lo ≤ 0) (hhi0 : 0 ≤ hi)
    (hlo : (lo : ℚ) ≤ q) (hhi : q ≤ (hi : ℚ)) :
    lo ≤ ratTrunc q ∧ ratTrunc q ≤ hi := by
  rw [ratTrunc]
  split_ifs with h
  · constructor
    · exact le_trans hlo0 (Int.floor_nonneg.mpr h)
    · exact_mod_cast le_trans (Int.floor_le q) hhi
  · push_neg at h
    constructor
    · exact_mod_cast le_trans hlo (Int.le_ceil q)
    · exact le_trans (Int.ceil_le.mpr (by exact_mod_cast h.le)) hhi0

/-- Helper: the part_002 post-processing clamps into [-32767, 32767]. -/
theorem quantizeBuf_bounds (p : ℚ) :
    -32767 ≤ quantizeBuf p ∧ quantizeBuf p ≤ 32767 := by
  rw [quantizeBuf]
  constructor
  · have h1 : (-1 : ℚ) ≤ max (-1) (min 1 (p * 0.11)) := le_max_left _ _
    linarith
  · have h2 : max (-1) (min 1 (p * 0.11)) ≤ 1 :=
      max_le (by norm_num) (min_le_left _ _)
    linarith

/-- Helper: the part_005 post-processing clamps into [-32767, 32767]. -/
theorem quantizeWav_bounds (v : ℚ) :
    -32767 ≤ quantizeWav v ∧ quantizeWav v ≤ 32767 := by
  rw [quantizeWav]
  constructor
  · have h1 : (-1 : ℚ) ≤ max (min (v * 0.2) 1) (-1) := le_max_right _ _
    linarith
  · have h2 : max (min (v * 0.2) 1) (-1) ≤ 1 :=
      max_le (min_le_right _ _) (by norm_num)
    linarith

/-- Helper: the Web Audio clamp bounds the stored sample into [-0.8, 0.8]. -/
theorem clampPlay_bounds (v : ℚ) :
    -(0.8 : ℚ) ≤ clampPlay v ∧ clampPlay v ≤ 0.8 := by
  simp only [clampPlay]
  split_ifs <;> constructor <;> linarith

/-- C8: for every white-draw stream and every sample index, the WAV
generators store a quantized sample within [-32767, 32767] (the
pre-quantization value is hard-clamped to [-1, 1] before the 32767 scaling,
so the Int16 write never overflows), and the Web Audio revision stores a
value within [-0.8, 0.8]. -/
theorem noise_samples_in_range (ws : List ℚ) (i : ℕ) :
    (-32767 ≤ (bufSamples ws).getD i 0 ∧ (bufSamples ws).getD i 0 ≤ 32767) ∧
    (-32767 ≤ (wavSamples ws).getD i 0 ∧ (wavSamples ws).getD i 0 ≤ 32767) ∧
    (-(0.8 : ℚ) ≤ (playSamples ws).getD i 0 ∧ (playSamples ws).getD i 0 ≤ 0.8) := by
  refine ⟨?_, ?_, ?_⟩
  · refine forall_getD _ i 0 (fun x => -32767 ≤ x ∧ x ≤ 32767) (by norm_num)
      (fun x hx => ?_)
    simp only [bufSamples] at hx
    obtain ⟨p, hp, rfl⟩ := List.mem_map.mp hx
    refine ratTrunc_bounds _ (-32767) 32767 (by norm_num) (by norm_num) ?_ ?_
    · exact_mod_cast (quantizeBuf_bounds p).1
    · exact_mod_cast (quantizeBuf_bounds p).2
  · refine forall_getD _ i 0 (fun x => -32767 ≤ x ∧ x ≤ 32767) (by norm_num)
      (fun x hx => ?_)
    simp only [wavSamples] at hx
    obtain ⟨v, hv, rfl⟩ := List.mem_map.mp hx
    refine ratTrunc_bounds _ (-32767) 32767 (by norm_num) (by norm_num) ?_ ?_
    · exact_mod_cast (quantizeWav_bounds v).1
    · exact_mod_cast (quantizeWav_bounds v).2
  · refine forall_getD _ i 0 (fun x => -(0.8 : ℚ) ≤ x ∧ x ≤ 0.8) (by norm_num)
      (fun x hx => ?_)
    simp only [playSamples] at hx
    obtain ⟨v, hv, rfl⟩ := List.mem_map.mp hx
    exact clampPlay_bounds v

/-! ## Volume fades -/

/-- Helper: the cast of the step count. -/
theorem fadeSteps_cast : (fadeSteps : ℚ) = 20 := by
  norm_num [fadeSteps]

/-- Helper: closed form of the fade-in volume within the 20 ticks. -/
theorem fadeInVol_eq (t : ℚ) (ht : 0 ≤ t) :
    ∀ k, k ≤ 20 → fadeInVol t k = k * t / 20 := by
  intro k
  induction k with
  | zero => intro _; simp [fadeInVol]
  | succ k ih =>
    intro hk
    have hk20 : ((k : ℚ) + 1) ≤ 20 := by exact_mod_cast hk
    have hmul : ((k : ℚ) + 1) * t ≤ 20 * t := mul_le_mul_of_nonneg_right hk20 ht
    rw [fadeInVol, fadeSteps_cast, ih (by omega), min_eq_left (by linarith)]
    push_cast
    ring

/-- Helper: closed form of the fade-out volume within the 20 ticks. -/
theorem fadeOutVol_eq (c : ℚ) (hc : 0 ≤ c) :
    ∀ k, k ≤ 20 → fadeOutVol c k = c - k * c / 20 := by
  intro k
  induction k with
  | zero => intro _; simp [fadeOutVol]
  | succ k ih =>
    intro hk
    have hk20 : ((k : ℚ) + 1) ≤ 20 := by exact_mod_cast hk
    have hmul : ((k : ℚ) + 1) * c ≤ 20 * c := mul_le_mul_of_nonneg_right hk20 hc
    rw [fadeOutVol, fadeSteps_cast, ih (by omega), max_eq_left (by linarith)]
    push_cast
    ring

/-- Helper: closed form of the fade-to-volume value (the step is added
unclamped). -/
theorem fadeToVol_eq (c t : ℚ) :
    ∀ k, fadeToVol c t k = c + k * (t - c) / 20 := by
  intro k
  induction k with
  | zero => simp [fadeToVol]
  | succ k ih =>
    rw [fadeToVol, fadeSteps_cast, ih]
    push_cast
    ring

/-- C3 counterexample: `fadeToVolume` with the target equal to the current
volume never completes.  The step is (target - current)/20 = 0 and the
clearing condition |current - target| < |step| reads |0| < 0, which never
holds, so no tick ever stops the interval (the claim covers this case
explicitly). -/
theorem fadeToVolume_stalls_on_equal_target :
    ¬ ∃ n, stopsAt (fadeToDone (1 / 2) (1 / 2)) n := by
  rintro ⟨n, hn⟩
  rw [stopsAt] at hn
  obtain ⟨-, hdone, -⟩ := hn
  rw [fadeToDone, fadeSteps_cast] at hdone
  have hz : ((1 : ℚ) / 2 - 1 / 2) / 20 = 0 := by norm_num
  rw [hz, abs_zero] at hdone
  exact absurd hdone (not_lt.mpr (abs_nonneg _))

/-- C3 amended: `fadeIn` and `fadeOut` always complete within the 20 ticks
with the final tick leaving the volume exactly at the target (the target
volume, resp. exactly 0), for every start and target in [0, 1]; and
`fadeToVolume` completes in exactly 20 ticks with the final value exactly
the target whenever the target differs from the current volume (when they
are equal it never completes, per the counterexample). -/
theorem fade_operations_complete :
    (∀ t : ℚ, 0 ≤ t → t ≤ 1 →
      ∃ n, n ≤ 20 ∧ stopsAt (fadeInDone t) n ∧ fadeInVol t n = t) ∧
    (∀ c : ℚ, 0 ≤ c → c ≤ 1 →
      ∃ n, n ≤ 20 ∧ stopsAt (fadeOutDone c) n ∧ fadeOutVol c n = 0) ∧
    (∀ c t : ℚ, t ≠ c →
      stopsAt (fadeToDone c t) 20 ∧ fadeToVol c t 20 = t) := by
  refine ⟨fun t ht ht1 => ?_, fun c hc hc1 => ?_, fun c t hne => ?_⟩
  · rcases eq_or_lt_of_le ht with heq | hpos
    · refine ⟨1, by norm_num, ⟨le_refl 1, ?_, fun m h1 h2 => by omega⟩, ?_⟩
      · rw [fadeInDone, ← heq]
        norm_num [fadeInVol, fadeSteps_cast]
      · rw [← heq]
        norm_num [fadeInVol, fadeSteps_cast]
    · refine ⟨20, le_refl 20, ⟨by norm_num, ?_, fun m h1 h2 => ?_⟩, ?_⟩
      · rw [fadeInDone, fadeInVol_eq t ht 20 le_rfl]
        push_cast
        linarith
      · rw [fadeInDone, fadeInVol_eq t ht m (by omega)]
        intro hcon
        have hm : (m : ℚ) ≤ 19 := by exact_mod_cast (by omega : m ≤ 19)
        have := mul_le_mul_of_nonneg_right hm ht
        linarith
      · rw [fadeInVol_eq t ht 20 le_rfl]
        push_cast
        ring
  · rcases eq_or_lt_of_le hc with heq | hpos
    · refine ⟨1, by norm_num, ⟨le_refl 1, ?_, fun m h1 h2 => by omega⟩, ?_⟩
      · rw [fadeOutDone, ← heq]
        norm_num [fadeOutVol, fadeSteps_cast]
      · rw [← heq]
        norm_num [fadeOutVol, fadeSteps_cast]
    · refine ⟨20, le_refl 20, ⟨by norm_num, ?_, fun m h1 h2 => ?_⟩, ?_⟩
      · rw [fadeOutDone, fadeOutVol_eq c hc 20 le_rfl]
        push_cast
        linarith
      · rw [fadeOutDone, fadeOutVol_eq c hc m (by omega)]
        intro hcon
        have hm : (m : ℚ) ≤ 19 := by exact_mod_cast (by omega : m ≤ 19)
        have := mul_le_mul_of_nonneg_right hm hc
        linarith
      · rw [fadeOutVol_eq c hc 20 le_rfl]
        push_cast
        ring
  · have hd : t - c ≠ 0 := sub_ne_zero.mpr hne
    have habs : 0 < |t - c| := abs_pos.mpr hd
    refine ⟨⟨by norm_num, ?_, fun m h1 h2 => ?_⟩, ?_⟩
    · rw [fadeToDone, fadeToVol_eq, fadeSteps_cast]
      push_cast
      have h20 : c + 20 * (t - c) / 20 - t = 0 := by ring
      rw [h20, abs_zero, abs_div]
      apply div_pos habs
      norm_num
    · rw [fadeToDone, fadeToVol_eq, fadeSteps_cast]
      intro hcon
      have hexp : c + (m : ℚ) * (t - c) / 20 - t = (t - c) * (((m : ℚ) - 20) / 20) := by
        ring
      rw [hexp, abs_mul, abs_div, abs_div] at hcon
      have hm : (m : ℚ) ≤ 19 := by exact_mod_cast (by omega : m ≤ 19)
      have hm20 : |(m : ℚ) - 20| = 20 - m := by
        rw [abs_of_nonpos (by linarith)]
        ring
      have h20 : |(20 : ℚ)| = 20 := by norm_num
      rw [hm20, h20] at hcon
      have haux : |t - c| * 1 ≤ |t - c| * (20 - (m : ℚ)) :=
        mul_le_mul_of_nonneg_left (by linarith) (abs_nonneg _)
      linarith
    · rw [fadeToVol_eq]
      push_cast
      ring

/-- C3 witness: fade-in to 1/2 and fade-out from 1/2 complete within 20
ticks ending exactly at target; fade-to-volume from 1/2 to 7/10 completes at
tick 20 ending exactly at 7/10. -/
theorem fade_operations_complete_witness :
    (∃ n, n ≤ 20 ∧ stopsAt (fadeInDone (1 / 2)) n ∧ fadeInVol (1 / 2) n = 1 / 2) ∧
    (∃ n, n ≤ 20 ∧ stopsAt (fadeOutDone (1 / 2)) n ∧ fadeOutVol (1 / 2) n = 0) ∧
    (stopsAt (fadeToDone (1 / 2) (7 / 10)) 20 ∧ fadeToVol (1 / 2) (7 / 10) 20 = 7 / 10) :=
  ⟨fade_operations_complete.1 (1 / 2) (by norm_num) (by norm_num),
   fade_operations_complete.2.1 (1 / 2) (by norm_num) (by norm_num),
   fade_operations_complete.2.2 (1 / 2) (7 / 10) (by norm_num)⟩

/-! ## WAV header layout -/

set_option maxHeartbeats 1000000 in
/-- Helper: the header build as one explicit 44-byte list. -/
theorem generateWavHeader_eq (R N : ℕ) :
    generateWavHeader R N =
      [82, 73, 70, 70,
       (36 + N * 2) % 256, (36 + N * 2) / 256 % 256,
       (36 + N * 2) / 65536 % 256, (36 + N * 2) / 16777216 % 256,
       87, 65, 86, 69,
       102, 109, 116, 32,
       16, 0, 0, 0,
       1, 0,
       1, 0,
       R % 256, R / 256 % 256, R / 65536 % 256, R / 16777216 % 256,
       R * 2 % 256, R * 2 / 256 % 256, R * 2 / 65536 % 256, R * 2 / 16777216 % 256,
       2, 0,
       16, 0,
       100, 97, 116, 97,
       N * 2 % 256, N * 2 / 256 % 256, N * 2 / 65536 % 256, N * 2 / 16777216 % 256] :=
  rfl

set_option maxHeartbeats 1000000 in
/-- Helper: the part_005 header equals the parametric header at 44100 Hz and
132300 samples (3 seconds). -/
theorem createWavHeader_eq : createWavHeader = generateWavHeader 44100 132300 :=
  rfl

/-- C4: for every sample rate R and sample count N whose derived 32-bit
fields are in range, the 44 header bytes form the canonical WAVE header:
RIFF at 0, total size minus 8 at 4, WAVE at 8, fmt-space at 12, subchunk
size 16 at 16, PCM format 1 at 20, channel count 1 at 22, sample rate R at
24, byte rate R·1·2 at 28, block align 1·2 at 32, bits per sample 16 at 34,
data at 36 and data size 2·N at 40, multi-byte fields little-endian; and the
part_005 header is the same encoding at its constants 44100 Hz and 132300
samples. -/
theorem wav_header_layout (R N : ℕ)
    (hN : 36 + N * 2 < 4294967296) (hR : R * 2 < 4294967296) :
    (generateWavHeader R N).length = 44 ∧
    (generateWavHeader R N).take 4 = riffBytes ∧
    readU32 (generateWavHeader R N) 4 = 44 + N * 2 - 8 ∧
    ((generateWavHeader R N).drop 8).take 4 = waveBytes ∧
    ((generateWavHeader R N).drop 12).take 4 = fmtBytes ∧
    readU32 (generateWavHeader R N) 16 = 16 ∧
    readU16 (generateWavHeader R N) 20 = 1 ∧
    readU16 (generateWavHeader R N) 22 = 1 ∧
    readU32 (generateWavHeader R N) 24 = R ∧
    readU32 (generateWavHeader R N) 28 = R * 1 * 2 ∧
    readU16 (generateWavHeader R N) 32 = 1 * 2 ∧
    readU16 (generateWavHeader R N) 34 = 16 ∧
    ((generateWavHeader R N).drop 36).take 4 = dataChunkBytes ∧
    readU32 (generateWavHeader R N) 40 = 2 * N ∧
    createWavHeader = generateWavHeader 44100 132300 := by
  rw [generateWavHeader_eq]
  refine ⟨rfl, rfl, ?_, rfl, rfl, rfl, rfl, rfl, ?_, ?_, rfl, rfl, rfl, ?_,
    createWavHeader_eq⟩
  · show (36 + N * 2) % 256 + 256 * ((36 + N * 2) / 256 % 256)
        + 65536 * ((36 + N * 2) / 65536 % 256)
        + 16777216 * ((36 + N * 2) / 16777216 % 256) = 44 + N * 2 - 8
    omega
  · show R % 256 + 256 * (R / 256 % 256) + 65536 * (R / 65536 % 256)
        + 16777216 * (R / 16777216 % 256) = R
    omega
  · show R * 2 % 256 + 256 * (R * 2 / 256 % 256) + 65536 * (R * 2 / 65536 % 256)
        + 16777216 * (R * 2 / 16777216 % 256) = R * 1 * 2
    omega
  · show N * 2 % 256 + 256 * (N * 2 / 256 % 256) + 65536 * (N * 2 / 65536 % 256)
        + 16777216 * (N * 2 / 16777216 % 256) = 2 * N
    omega

/-- C4 witness at the defaults of the part_002 source: 44100 Hz and 2
seconds, that is 88200 samples. -/
theorem wav_header_layout_witness :
    readU32 (generateWavHeader 44100 88200) 4 = 44 + 88200 * 2 - 8 ∧
    readU32 (generateWavHeader 44100 88200) 24 = 44100 ∧
    readU32 (generateWavHeader 44100 88200) 40 = 2 * 88200 :=
  ⟨(wav_header_layout 44100 88200 (by norm_num) (by norm_num)).2.2.1,
   (wav_header_layout 44100 88200 (by norm_num) (by norm_num)).2.2.2.2.2.2.2.2.1,
   (wav_header_layout 44100 88200 (by norm_num)
      (by norm_num)).2.2.2.2.2.2.2.2.2.2.2.2.2.1⟩

end MyCalmBaby
